import Mathlib

/-!
Verification development for the voice_guard_rail orchestration core.

The definitions below are a shallow embedding of the Python sources:
- src/src/sensevoice_analyzer.py : rich-output parsing (`_parse_sensevoice_output`),
  result synthesis (`analyze`), empty result (`_empty_result`), lazy loading.
- src/api/main.py : startup fallback (`lifespan`), backend selection in
  `analyze_audio`, and the translation fan-out (`_translate_text`).

Text is modelled as `List Char`; Python regular-expression scans are embedded
as deterministic scanners that follow the exact backtracking behaviour of the
two patterns the source uses.  Python floats here are only ever the literal
constants 0.85 / 0.05 / 0.0 (no arithmetic is performed on them), so they are
modelled as rationals.
-/

/-- ASCII whitespace, as stripped by Python's str.strip (the source never
feeds non-ASCII whitespace to strip). -/
def isPySpace (c : Char) : Bool :=
  c == ' ' || c == '\t' || c == '\n' || c == '\r' || c == Char.ofNat 11 || c == Char.ofNat 12

/-- Python str.strip : drop whitespace from both ends. -/
def pyStrip (l : List Char) : List Char :=
  ((l.dropWhile isPySpace).reverse.dropWhile isPySpace).reverse

/-- Python str.lower on the ASCII strings handled by the source. -/
def pyLower (s : String) : String :=
  String.mk (s.toList.map Char.toLower)

/-! ### The removal pattern of sensevoice_analyzer.py line 118

Python scans with the regex given by angle-pipe, one-or-more non-pipe
characters, pipe-angle.  At a given start position, the greedy interior runs
to the first pipe, which must then be followed by a closing angle; no shorter
interior can ever match because interior characters are non-pipe.  `closeLen`
consumes the interior (at least one non-pipe character precedes the call) up
to and including the two closing characters, returning the consumed length. -/

/-- Length of interior-remainder plus closing delimiter of a tag, if the
first pipe encountered is immediately followed by a closing angle. -/
def closeLen : List Char → Option Nat
  | [] => none
  | c :: rest =>
    if c = '|' then (if rest.head? = some '>' then some 2 else none)
    else (closeLen rest).map (· + 1)

/-- Length of the tag match starting at the head of the list, if any:
the embedded form of one regex match attempt of the removal pattern. -/
def tagLen (l : List Char) : Option Nat :=
  match l with
  | a :: b :: c :: rest =>
    if a = '<' ∧ b = '|' ∧ c ≠ '|' then (closeLen rest).map (· + 3) else none
  | _ => none

/-- Fuel-indexed single pass of Python re.sub with the removal pattern and
empty replacement: leftmost non-overlapping matches are deleted, matched
spans are not rescanned. -/
def reSubF : Nat → List Char → List Char
  | 0, l => l
  | _ + 1, [] => []
  | f + 1, c :: cs =>
    match tagLen (c :: cs) with
    | some n => reSubF f ((c :: cs).drop n)
    | none => c :: reSubF f cs

/-- re.sub of the removal pattern with empty replacement (line 118). -/
def reSub (l : List Char) : List Char := reSubF l.length l

/-! ### The scan pattern of sensevoice_analyzer.py line 108

re.findall with angle-pipe, one-or-more uppercase ASCII letters, pipe-angle,
capturing the letters.  The greedy uppercase run cannot backtrack (a shorter
run would be followed by an uppercase letter, never a pipe), so one match
attempt is again deterministic. -/

/-- One match attempt of the uppercase scan pattern at the head of the list:
returns the captured identifier and the remainder after the match. -/
def emoAt : List Char → Option (String × List Char)
  | '<' :: '|' :: rest =>
    match rest.dropWhile Char.isUpper with
    | '|' :: '>' :: r2 =>
      if (rest.takeWhile Char.isUpper).isEmpty then none
      else some (String.mk (rest.takeWhile Char.isUpper), r2)
    | _ => none
  | _ => none

/-- Fuel-indexed re.findall of the uppercase scan pattern: captured groups of
the leftmost non-overlapping matches, in order. -/
def findAllF : Nat → List Char → List String
  | 0, _ => []
  | _ + 1, [] => []
  | f + 1, c :: cs =>
    match emoAt (c :: cs) with
    | some (u, rest) => u :: findAllF f rest
    | none => findAllF f cs

/-- re.findall of the uppercase scan pattern (line 109). -/
def findAllEmo (l : List Char) : List String := findAllF l.length l

/-! ### Capability registry (sensevoice_analyzer.py lines 44-67) -/

/-- Display metadata attached to each registry emotion. -/
structure DisplayInfo where
  label : String
  emoji : String
  color : String
deriving DecidableEq

/-- EMOTION_DISPLAY, in its source insertion order. -/
def emotionDisplay : List (String × DisplayInfo) :=
  [("HAPPY", ⟨"Happy", "😊", "#51cf66"⟩),
   ("SAD", ⟨"Sad", "😢", "#748ffc"⟩),
   ("ANGRY", ⟨"Angry", "😠", "#ff6b6b"⟩),
   ("NEUTRAL", ⟨"Neutral", "😐", "#868e96"⟩),
   ("FEARFUL", ⟨"Fearful", "😨", "#9775fa"⟩),
   ("DISGUSTED", ⟨"Disgust", "🤢", "#a9e34b"⟩),
   ("SURPRISED", ⟨"Surprised", "😲", "#ffd43b"⟩),
   ("UNKNOWN", ⟨"Unknown", "🎭", "#adb5bd"⟩)]

/-- The registry's emotion identifier set (keys of EMOTION_DISPLAY). -/
def emotionKeys : List String := emotionDisplay.map Prod.fst

/-- LANGUAGE_MAP of the unified analyzer. -/
def languageMap : List (String × String) :=
  [("zh", "Chinese"), ("en", "English"), ("ja", "Japanese"),
   ("ko", "Korean"), ("yue", "Cantonese"), ("auto", "Auto-detect")]

/-- AUDIO_EVENTS vocabulary. -/
def audioEventVocab : List String :=
  ["bgm", "applause", "laughter", "crying", "coughing", "sneezing"]

/-! ### The classification loop of _parse_sensevoice_output (lines 103-115) -/

/-- The for-loop over the scanned identifiers: an identifier that is a
registry emotion key overwrites the running emotion; otherwise, one whose
lowercased form is in the audio-event vocabulary is appended to the event
list; anything else is ignored. -/
def classifyTags : List String → String → List String → String × List String
  | [], emo, evs => (emo, evs)
  | m :: ms, emo, evs =>
    if emotionKeys.contains m then classifyTags ms m evs
    else if audioEventVocab.contains (pyLower m) then
      classifyTags ms emo (evs ++ [pyLower m])
    else classifyTags ms emo evs

/-- Output triple of the rich-output parser. -/
structure ParsedOutput where
  cleanText : List Char
  emotion : String
  audio_events : List String

/-- _parse_sensevoice_output (sensevoice_analyzer.py lines 92-120). -/
def parseSenseVoiceOutput (raw : List Char) : ParsedOutput :=
  let pr := classifyTags (findAllEmo raw) "NEUTRAL" []
  ⟨pyStrip (reSub raw), pr.1, pr.2⟩

/-! ### The unified analyze path (sensevoice_analyzer.py lines 122-217)

`analyze` is embedded from the point after the model call: the model's
generate output is a parameter (a list of records carrying optional text and
language fields, mirroring result[0].get with its defaults), and the external
rich_transcription_postprocess collaborator is a function parameter. -/

/-- One record of the model's generate output. -/
structure GenItem where
  text : Option (List Char)
  language : Option String

/-- Transcription part of the analyze result. -/
structure TranscriptionOut where
  text : List Char
  language : String
  language_name : String
deriving DecidableEq

/-- Emotion part of the analyze result; the probability table is an ordered
association list, mirroring a Python dict's insertion order. -/
structure EmotionOut where
  emotion : String
  emoji : String
  color : String
  confidence : ℚ
  raw_label : String
  all_probabilities : List (String × ℚ)
deriving DecidableEq

/-- Full analyze result. -/
structure AnalyzeOut where
  transcription : TranscriptionOut
  emotionField : EmotionOut
  audio_events : List String
  raw_output : List Char
deriving DecidableEq

/-- Python dict update d[k] = v : overwrite in place when the key exists,
otherwise append at the end. -/
def dictUpdate (d : List (String × ℚ)) (k : String) (v : ℚ) : List (String × ℚ) :=
  if d.any (fun p => p.1 == k) then
    d.map (fun p => if p.1 == k then (k, v) else p)
  else d ++ [(k, v)]

/-- Line 178: every registry emotion except the Unknown sentinel starts at
the residual value. -/
def baseProbs : List (String × ℚ) :=
  (emotionKeys.filter (fun e => e != "UNKNOWN")).map (fun e => (e, (0.05 : ℚ)))

/-- _empty_result (lines 199-217). -/
def emptyResult : AnalyzeOut :=
  { transcription := ⟨[], "unknown", "Unknown"⟩
  , emotionField := ⟨"Neutral", "😐", "#868e96", 0, "neutral", []⟩
  , audio_events := []
  , raw_output := [] }

/-- analyze (lines 141-197), after the generate call: empty model output
short-circuits to the empty result; otherwise the first record's text is
post-processed, parsed, and wrapped with the synthesized 0.85/0.05
distribution and display metadata. -/
def analyze (post : List Char → List Char) (genResult : List GenItem)
    (language : String) : AnalyzeOut :=
  match genResult with
  | [] => emptyResult
  | r :: _ =>
    let raw_output := r.text.getD []
    let p := parseSenseVoiceOutput (post raw_output)
    let info := (emotionDisplay.lookup p.emotion).getD ⟨"Neutral", "😐", "#868e96"⟩
    let detected0 := r.language.getD language
    let detected := if detected0 = "auto" then "en" else detected0
    let all_probs := dictUpdate baseProbs p.emotion (0.85 : ℚ)
    { transcription := ⟨p.cleanText, detected, (languageMap.lookup detected).getD detected⟩
    , emotionField := ⟨info.label, info.emoji, info.color, (0.85 : ℚ), pyLower p.emotion,
        all_probs.map (fun kv => (pyLower kv.1, kv.2))⟩
    , audio_events := p.audio_events
    , raw_output := raw_output }

/-! ### Backend lifecycle (api/main.py lifespan and analyze_audio) -/

/-- The three model slots of main.py that decide the analysis path:
the unified analyzer (present once constructed, with its loaded flag) and
the two legacy backends. -/
structure AppModels where
  sensevoice : Option Bool
  emotion_classifier : Option Bool
  speech_transcriber : Option Bool
deriving DecidableEq

/-- lifespan (main.py lines 47-92), restricted to the analysis slots: with
the unified backend preferred, a load failure is caught (the except branch
only prints and assigns a dead local), leaving the unified slot constructed
but unloaded and the legacy slots untouched; without it, the legacy loads
run unguarded and propagate failure. -/
def lifespanStartup (useSensevoice : Bool) (svLoadOk : Bool)
    (legacyEmoOk legacyAsrOk : Bool) : Except String AppModels :=
  if useSensevoice then
    if svLoadOk then Except.ok ⟨some true, none, none⟩
    else Except.ok ⟨some false, none, none⟩
  else
    if legacyEmoOk then
      if legacyAsrOk then Except.ok ⟨none, some true, some true⟩
      else Except.error "speech transcriber load failed"
    else Except.error "emotion classifier load failed"

/-- Which path a request to analyze_audio takes (lines 224-247): unified
when enabled, constructed and loaded; legacy when both legacy slots are
present; otherwise the 503 models-not-loaded error. -/
inductive ActiveMode
  | unified
  | legacy
  | unavailable
deriving DecidableEq

/-- Backend selection of analyze_audio (main.py lines 224-237). -/
def resolveActiveMode (useSensevoice : Bool) (m : AppModels) : ActiveMode :=
  if useSensevoice && m.sensevoice.getD false then ActiveMode.unified
  else if m.emotion_classifier.isSome && m.speech_transcriber.isSome then ActiveMode.legacy
  else ActiveMode.unavailable

/-- Lazy-load guard of the unified analyzer (sensevoice_analyzer.py lines
133-134): load only when no model handle is held; a held handle is kept
untouched. -/
def ensureLoaded {α : Type} (fresh : α) (st : Option α) : Option α :=
  match st with
  | some m => some m
  | none => some fresh

/-- is_loaded (sensevoice_analyzer.py lines 219-221). -/
def isLoadedSV {α : Type} (st : Option α) : Bool := st.isSome

/-! ### Translation fan-out (api/main.py lines 308-340) -/

/-- One entry of the translator's supported-language metadata. -/
structure LangRec where
  code : String
  name : String
  flag : String
deriving DecidableEq

/-- One translation of the fan-out output. -/
structure TranslationItem where
  language_code : String
  language_name : String
  flag : String
  text : String
deriving DecidableEq

/-- The translation collaborator as the fan-out sees it: its loaded state,
whether an on-demand load would succeed, its supported-language metadata, and
the per-call outcome of translate (none models a raised exception). -/
structure TranslatorState where
  loaded : Bool
  loadOk : Bool
  supported : List LangRec
  translateRes : String → String → String → Option String

/-- Lookup in the dict comprehension of line 321: a later list entry with
the same code overwrites an earlier one. -/
def langInfoGet (ls : List LangRec) (code : String) : Option LangRec :=
  ls.reverse.find? (fun l => l.code == code)

/-- The per-target loop of _translate_text (lines 323-340): self-targets are
skipped, a raised translate call is swallowed and its target omitted, and
each success is enriched with registry metadata (name falling back to the
raw code, flag to the neutral placeholder). -/
def fanOut (tr : TranslatorState) (text source : String) :
    List String → List TranslationItem
  | [] => []
  | t :: ts =>
    if t = source then fanOut tr text source ts
    else
      match tr.translateRes text source t with
      | some translated =>
        { language_code := t
        , language_name := ((langInfoGet tr.supported t).map LangRec.name).getD t
        , flag := ((langInfoGet tr.supported t).map LangRec.flag).getD "🏳️"
        , text := translated } :: fanOut tr text source ts
      | none => fanOut tr text source ts

/-- _translate_text (lines 308-340): an absent translator or blank text
returns the empty list before anything else; an unloaded translator is
loaded on demand and that failure alone escapes; then the per-target loop
runs. -/
def translateText (translator : Option TranslatorState) (text source : String)
    (targets : List String) : Except String (List TranslationItem) :=
  match translator with
  | none => Except.ok []
  | some tr =>
    if pyStrip text.toList = [] then Except.ok []
    else if tr.loaded then Except.ok (fanOut tr text source targets)
    else if tr.loadOk then Except.ok (fanOut { tr with loaded := true } text source targets)
    else Except.error "translator load failed"

/-! ### Spec-level notions used by the decomposition and residual-tag
statements, and the concrete translator of the C7 scenario -/

/-- A complete tag span: opening delimiter, nonempty pipe-free interior,
closing delimiter.  This is the spec-level description of what the removal
pattern matches. -/
def IsTagSpan (t : List Char) : Prop :=
  ∃ mid, t = '<' :: '|' :: (mid ++ ['|', '>']) ∧ mid ≠ [] ∧ ∀ x ∈ mid, x ≠ '|'

/-- Reassemble an alternating gap/tag decomposition. -/
def joinPieces (ps : List (List Char × List Char)) (last : List Char) : List Char :=
  (ps.map (fun p => p.1 ++ p.2)).flatten ++ last

/-- Concatenation of the kept (gap) parts of a decomposition. -/
def gapsJoin (ps : List (List Char × List Char)) (last : List Char) : List Char :=
  (ps.map Prod.fst).flatten ++ last

/-- A clean-text string still containing an occurrence of the uppercase tag
pattern: some prefix, the opening delimiter, a nonempty run of uppercase
letters, the closing delimiter, some suffix. -/
def containsUpperTag (s : List Char) : Prop :=
  ∃ pre mid post, s = pre ++ '<' :: '|' :: (mid ++ '|' :: '>' :: post) ∧ mid ≠ [] ∧
    ∀ c ∈ mid, Char.isUpper c

/-- The concrete translator of the C7 scenario: loaded, with translate
failing on target es and succeeding elsewhere. -/
def trC7 : TranslatorState :=
  ⟨true, true,
   [⟨"en", "English", "🇬🇧"⟩, ⟨"es", "Spanish", "🇪🇸"⟩, ⟨"fr", "French", "🇫🇷"⟩],
   fun _ _ t => if t = "es" then none else some "Bonjour"⟩

/-! ### Facts about the removal scanner -/

theorem closeLen_bounds : ∀ {l : List Char} {n : Nat}, closeLen l = some n → 2 ≤ n ∧ n ≤ l.length := by
  intro l
  induction l with
  | nil => intro n h; simp [closeLen] at h
  | cons c rest ih =>
    intro n h
    by_cases hc : c = '|'
    · subst hc
      by_cases hd : rest.head? = some '>'
      · simp [closeLen, hd] at h
        cases rest with
        | nil => simp at hd
        | cons d ds => simp; omega
      · simp [closeLen, hd] at h
    · simp [closeLen, hc] at h
      obtain ⟨m, hm, hn⟩ := h
      have := ih hm
      simp
      omega

theorem tagLen_bounds : ∀ {l : List Char} {n : Nat}, tagLen l = some n → 5 ≤ n ∧ n ≤ l.length := by
  intro l n h
  match l with
  | [] => simp [tagLen] at h
  | [a] => simp [tagLen] at h
  | [a, b] => simp [tagLen] at h
  | a :: b :: c :: rest =>
    by_cases hcond : a = '<' ∧ b = '|' ∧ c ≠ '|'
    · simp only [tagLen, if_pos hcond, Option.map_eq_some'] at h
      obtain ⟨m, hm, hn⟩ := h
      have := closeLen_bounds hm
      simp
      omega
    · simp [tagLen, if_neg hcond] at h

theorem closeLen_append {l t : List Char} {n : Nat} (h : closeLen l = some n) :
    closeLen (l ++ t) = some n := by
  induction l generalizing n with
  | nil => simp [closeLen] at h
  | cons c rest ih =>
    by_cases hc : c = '|'
    · subst hc
      by_cases hd : rest.head? = some '>'
      · cases rest with
        | nil => simp at hd
        | cons d ds =>
          simp at hd
          subst hd
          simpa [closeLen] using h
      · simp [closeLen, hd] at h
    · simp only [closeLen, if_neg hc, Option.map_eq_some'] at h
      obtain ⟨m, hm, hn⟩ := h
      calc closeLen ((c :: rest) ++ t) = (closeLen (rest ++ t)).map (· + 1) := by
            rw [List.cons_append]; simp [closeLen, hc]
        _ = some (m + 1) := by rw [ih hm]; rfl
        _ = some n := by rw [hn]

theorem tagLen_append {l t : List Char} {n : Nat} (h : tagLen l = some n) :
    tagLen (l ++ t) = some n := by
  match l with
  | [] => simp [tagLen] at h
  | [a] => simp [tagLen] at h
  | [a, b] => simp [tagLen] at h
  | a :: b :: c :: rest =>
    by_cases hcond : a = '<' ∧ b = '|' ∧ c ≠ '|'
    · simp only [tagLen, if_pos hcond, Option.map_eq_some'] at h
      obtain ⟨m, hm, hn⟩ := h
      calc tagLen ((a :: b :: c :: rest) ++ t) = (closeLen (rest ++ t)).map (· + 3) := by
            simp only [List.cons_append, tagLen, if_pos hcond]
        _ = some (m + 3) := by rw [closeLen_append hm]; rfl
        _ = some n := by rw [hn]
    · simp [tagLen, if_neg hcond] at h

theorem closeLen_decomp : ∀ {l : List Char} {n : Nat}, closeLen l = some n →
    ∃ mid, l.take n = mid ++ ['|', '>'] ∧ (∀ x ∈ mid, x ≠ '|') ∧ mid.length + 2 = n := by
  intro l
  induction l with
  | nil => intro n h; simp [closeLen] at h
  | cons c rest ih =>
    intro n h
    by_cases hc : c = '|'
    · subst hc
      by_cases hd : rest.head? = some '>'
      · simp [closeLen, hd] at h
        cases rest with
        | nil => simp at hd
        | cons d ds =>
          simp at hd
          subst hd
          exact ⟨[], by simp [← h], by simp, by simp; omega⟩
      · simp [closeLen, hd] at h
    · simp only [closeLen, if_neg hc, Option.map_eq_some'] at h
      obtain ⟨m, hm, hn⟩ := h
      obtain ⟨mid, hmid, hpipe, hlen⟩ := ih hm
      refine ⟨c :: mid, ?_, ?_, by simp; omega⟩
      · subst hn
        simp [List.take_cons, hmid]
      · intro x hx
        rcases List.mem_cons.mp hx with rfl | hx
        · exact hc
        · exact hpipe x hx

theorem tagLen_take {l : List Char} {n : Nat} (h : tagLen l = some n) :
    IsTagSpan (l.take n) := by
  match l with
  | [] => simp [tagLen] at h
  | [a] => simp [tagLen] at h
  | [a, b] => simp [tagLen] at h
  | a :: b :: c :: rest =>
    by_cases hcond : a = '<' ∧ b = '|' ∧ c ≠ '|'
    · simp only [tagLen, if_pos hcond, Option.map_eq_some'] at h
      obtain ⟨m, hm, hn⟩ := h
      obtain ⟨rfl, rfl, hc⟩ := hcond
      obtain ⟨mid, hmid, hpipe, hlen⟩ := closeLen_decomp hm
      refine ⟨c :: mid, ?_, by simp, ?_⟩
      · subst hn
        simp [List.take_cons, hmid]
      · intro x hx
        rcases List.mem_cons.mp hx with rfl | hx
        · exact hc
        · exact hpipe x hx
    · simp [tagLen, if_neg hcond] at h

theorem reSubF_nil : ∀ f, reSubF f [] = [] := by
  intro f
  cases f <;> rfl

theorem reSub_nil : reSub [] = [] := rfl

theorem reSubF_congr : ∀ (f1 : Nat) (l : List Char) (f2 : Nat),
    l.length ≤ f1 → l.length ≤ f2 → reSubF f1 l = reSubF f2 l := by
  intro f1
  induction f1 with
  | zero =>
    intro l f2 h1 _
    have : l = [] := List.length_eq_zero.mp (Nat.le_zero.mp h1)
    subst this
    exact (reSubF_nil f2).symm
  | succ f ih =>
    intro l f2 h1 h2
    cases l with
    | nil => rw [reSubF_nil, reSubF_nil]
    | cons c cs =>
      cases f2 with
      | zero => simp at h2
      | succ g =>
        simp only [reSubF]
        cases h : tagLen (c :: cs) with
        | some n =>
          have hb := tagLen_bounds h
          apply ih
          · simp at h1 ⊢; omega
          · simp at h2 ⊢; omega
        | none =>
          simp only [List.length_cons, Nat.add_le_add_iff_right] at h1 h2
          rw [ih cs g h1 h2]

theorem reSub_cons_some {c : Char} {cs : List Char} {n : Nat} (h : tagLen (c :: cs) = some n) :
    reSub (c :: cs) = reSub ((c :: cs).drop n) := by
  have hb := tagLen_bounds h
  unfold reSub
  rw [show reSubF (c :: cs).length (c :: cs) = reSubF (c :: cs).length.pred ((c :: cs).drop n) by
    simp only [List.length_cons, Nat.pred_succ, reSubF, h]]
  apply reSubF_congr
  · simp at hb ⊢; omega
  · exact le_rfl

theorem reSub_cons_none {c : Char} {cs : List Char} (h : tagLen (c :: cs) = none) :
    reSub (c :: cs) = c :: reSub cs := by
  unfold reSub
  simp only [List.length_cons, reSubF, h]

/-! ### Decomposition of the single removal pass -/

theorem joinPieces_nil (last : List Char) : joinPieces [] last = last := by
  simp [joinPieces]

theorem joinPieces_cons (p : List Char × List Char) (ps : List (List Char × List Char))
    (last : List Char) : joinPieces (p :: ps) last = p.1 ++ (p.2 ++ joinPieces ps last) := by
  simp [joinPieces]

theorem gapsJoin_nil (last : List Char) : gapsJoin [] last = last := by
  simp [gapsJoin]

theorem gapsJoin_cons (p : List Char × List Char) (ps : List (List Char × List Char))
    (last : List Char) : gapsJoin (p :: ps) last = p.1 ++ gapsJoin ps last := by
  simp [gapsJoin]

theorem reSub_decomp_aux : ∀ (fuel : Nat) (raw : List Char), raw.length ≤ fuel →
    ∃ ps last, raw = joinPieces ps last ∧ (∀ p ∈ ps, IsTagSpan p.2) ∧
      (∀ p ∈ ps, reSub p.1 = p.1) ∧ reSub last = last ∧ reSub raw = gapsJoin ps last := by
  intro fuel
  induction fuel with
  | zero =>
    intro raw h1
    have : raw = [] := List.length_eq_zero.mp (Nat.le_zero.mp h1)
    subst this
    exact ⟨[], [], by simp [joinPieces], by simp, by simp, reSub_nil, by rw [gapsJoin_nil, reSub_nil]⟩
  | succ f ih =>
    intro raw h1
    cases raw with
    | nil => exact ⟨[], [], by simp [joinPieces], by simp, by simp, reSub_nil, by rw [gapsJoin_nil, reSub_nil]⟩
    | cons c cs =>
      cases h : tagLen (c :: cs) with
      | some n =>
        have hb := tagLen_bounds h
        have hlen : ((c :: cs).drop n).length ≤ f := by
          simp at h1 hb ⊢
          omega
        obtain ⟨ps', last', hjoin, htags, hgaps, hlast, hsub⟩ := ih ((c :: cs).drop n) hlen
        refine ⟨([], (c :: cs).take n) :: ps', last', ?_, ?_, ?_, hlast, ?_⟩
        · rw [joinPieces_cons]
          simp only [List.nil_append]
          rw [← hjoin, List.take_append_drop]
        · intro p hp
          rcases List.mem_cons.mp hp with rfl | hp
          · exact tagLen_take h
          · exact htags p hp
        · intro p hp
          rcases List.mem_cons.mp hp with rfl | hp
          · rfl
          · exact hgaps p hp
        · rw [reSub_cons_some h, hsub, gapsJoin_cons, List.nil_append]
      | none =>
        have hlen : cs.length ≤ f := by simp at h1; omega
        obtain ⟨ps', last', hjoin, htags, hgaps, hlast, hsub⟩ := ih cs hlen
        cases ps' with
        | nil =>
          have hcs : cs = last' := by simpa [joinPieces_nil] using hjoin
          subst hcs
          have hr : reSub (c :: cs) = c :: reSub cs := reSub_cons_none h
          refine ⟨[], c :: cs, by simp [joinPieces], by simp, by simp, ?_, ?_⟩
          · rw [hr, hlast]
          · rw [hr, hlast, gapsJoin_nil]
        | cons p ps'' =>
          refine ⟨(c :: p.1, p.2) :: ps'', last', ?_, ?_, ?_, hlast, ?_⟩
          · rw [joinPieces_cons]
            simp only [List.cons_append]
            rw [hjoin, joinPieces_cons]
          · intro q hq
            rcases List.mem_cons.mp hq with rfl | hq
            · exact htags p (List.mem_cons_self p ps'')
            · exact htags q (List.mem_cons_of_mem p hq)
          · intro q hq
            rcases List.mem_cons.mp hq with rfl | hq
            · have hnone : tagLen (c :: p.1) = none := by
                cases h2 : tagLen (c :: p.1) with
                | none => rfl
                | some m =>
                  exfalso
                  have happ : tagLen ((c :: p.1) ++ (p.2 ++ joinPieces ps'' last')) = some m :=
                    tagLen_append h2
                  rw [show (c :: p.1) ++ (p.2 ++ joinPieces ps'' last') = c :: cs by
                    simp only [List.cons_append]
                    rw [hjoin, joinPieces_cons]] at happ
                  rw [h] at happ
                  exact Option.noConfusion happ
              rw [reSub_cons_none hnone, hgaps p (List.mem_cons_self p ps'')]
            · exact hgaps q (List.mem_cons_of_mem p hq)
          · rw [reSub_cons_none h, hsub, gapsJoin_cons, gapsJoin_cons]
            simp [List.cons_append]

theorem reSub_decomp (raw : List Char) :
    ∃ ps last, raw = joinPieces ps last ∧ (∀ p ∈ ps, IsTagSpan p.2) ∧
      (∀ p ∈ ps, reSub p.1 = p.1) ∧ reSub last = last ∧ reSub raw = gapsJoin ps last :=
  reSub_decomp_aux raw.length raw le_rfl

/-! ### Facts about the classification loop and the synthesized distribution -/

theorem classifyTags_fst : ∀ (ms : List String) (emo : String) (evs : List String),
    (classifyTags ms emo evs).1 = (ms.filter (fun m => emotionKeys.contains m)).getLastD emo := by
  intro ms
  induction ms with
  | nil => intro emo evs; rfl
  | cons m ms ih =>
    intro emo evs
    by_cases hm : emotionKeys.contains m
    · have hm' : m ∈ emotionKeys := by simpa using hm
      rw [show classifyTags (m :: ms) emo evs = classifyTags ms m evs by
        simp [classifyTags, hm']]
      rw [ih, List.filter_cons_of_pos (by simpa using hm), List.getLastD_cons]
    · have hm' : m ∉ emotionKeys := by simpa using hm
      have hfil : List.filter (fun x => emotionKeys.contains x) (m :: ms) =
          List.filter (fun x => emotionKeys.contains x) ms :=
        List.filter_cons_of_neg (by simpa using hm)
      by_cases he : audioEventVocab.contains (pyLower m)
      · have he' : pyLower m ∈ audioEventVocab := by simpa using he
        rw [show classifyTags (m :: ms) emo evs = classifyTags ms emo (evs ++ [pyLower m]) by
          simp [classifyTags, hm', he']]
        rw [ih, hfil]
      · have he' : pyLower m ∉ audioEventVocab := by simpa using he
        rw [show classifyTags (m :: ms) emo evs = classifyTags ms emo evs by
          simp [classifyTags, hm', he']]
        rw [ih, hfil]

theorem getLastD_prop {α : Type} (P : α → Prop) :
    ∀ (l : List α) (d : α), P d → (∀ x ∈ l, P x) → P (l.getLastD d) := by
  intro l
  induction l with
  | nil => intro d hd _; simpa using hd
  | cons a l ih =>
    intro d _ hl
    rw [List.getLastD_cons]
    exact ih a (hl a (List.mem_cons_self a l)) (fun x hx => hl x (List.mem_cons_of_mem a hx))

theorem parse_emotion_mem (raw : List Char) :
    (parseSenseVoiceOutput raw).emotion ∈ emotionKeys := by
  show (classifyTags (findAllEmo raw) "NEUTRAL" []).1 ∈ emotionKeys
  rw [classifyTags_fst]
  apply getLastD_prop (· ∈ emotionKeys)
  · decide
  · intro x hx
    have := List.of_mem_filter hx
    simpa using this

theorem emotionKeys_cases {e : String} (h : e ∈ emotionKeys) :
    e = "HAPPY" ∨ e = "SAD" ∨ e = "ANGRY" ∨ e = "NEUTRAL" ∨ e = "FEARFUL" ∨
    e = "DISGUSTED" ∨ e = "SURPRISED" ∨ e = "UNKNOWN" := by
  simpa [emotionKeys, emotionDisplay] using h

theorem probs_lookup_self {emo : String} (h : emo ∈ emotionKeys) :
    ((dictUpdate baseProbs emo (0.85 : ℚ)).map (fun kv => (pyLower kv.1, kv.2))).lookup
      (pyLower emo) = some (0.85 : ℚ) := by
  rcases emotionKeys_cases h with rfl | rfl | rfl | rfl | rfl | rfl | rfl | rfl <;> rfl

theorem probs_lookup_other {emo e : String} (hemo : emo ∈ emotionKeys) (he : e ∈ emotionKeys)
    (hne1 : e ≠ "UNKNOWN") (hne2 : e ≠ emo) :
    ((dictUpdate baseProbs emo (0.85 : ℚ)).map (fun kv => (pyLower kv.1, kv.2))).lookup
      (pyLower e) = some (0.05 : ℚ) := by
  rcases emotionKeys_cases hemo with rfl | rfl | rfl | rfl | rfl | rfl | rfl | rfl <;>
    rcases emotionKeys_cases he with rfl | rfl | rfl | rfl | rfl | rfl | rfl | rfl <;>
    first
      | exact absurd rfl hne1
      | exact absurd rfl hne2
      | rfl

/-! ### Facts about the translation fan-out -/

theorem fanOut_codes (tr : TranslatorState) (text source : String) :
    ∀ targets : List String,
      (∀ i ∈ fanOut tr text source targets, i.language_code ≠ source) ∧
      (fanOut tr text source targets).map TranslationItem.language_code =
        targets.filter
          (fun t => if t = source then false else (tr.translateRes text source t).isSome) := by
  intro targets
  induction targets with
  | nil => exact ⟨by simp [fanOut], by simp [fanOut]⟩
  | cons t ts ih =>
    by_cases ht : t = source
    · have hf : fanOut tr text source (t :: ts) = fanOut tr text source ts := by
        simp [fanOut, ht]
      constructor
      · intro i hi
        exact ih.1 i (hf ▸ hi)
      · rw [hf, ih.2, List.filter_cons_of_neg (by simp [ht])]
    · cases hr : tr.translateRes text source t with
      | none =>
        have hf : fanOut tr text source (t :: ts) = fanOut tr text source ts := by
          simp [fanOut, ht, hr]
        constructor
        · intro i hi
          exact ih.1 i (hf ▸ hi)
        · rw [hf, ih.2, List.filter_cons_of_neg (by simp [ht, hr])]
      | some s =>
        have hf : fanOut tr text source (t :: ts) =
            { language_code := t
            , language_name := ((langInfoGet tr.supported t).map LangRec.name).getD t
            , flag := ((langInfoGet tr.supported t).map LangRec.flag).getD "🏳️"
            , text := s } :: fanOut tr text source ts := by
          simp [fanOut, ht, hr]
        constructor
        · intro i hi
          rw [hf] at hi
          rcases List.mem_cons.mp hi with rfl | hi
          · exact ht
          · exact ih.1 i hi
        · rw [hf, List.map_cons, ih.2, List.filter_cons_of_pos (by simp [ht, hr])]

/-! ### Claim theorems -/

/-- Claim C1 (code evidence): with the unified backend preferred and its load
raising, startup swallows the exception (no propagation to the caller), but
the legacy slots are never initialized — the except branch of lifespan only
prints and assigns a dead local — so the active mode resolves to the 503
models-not-loaded condition instead of Legacy. -/
theorem unified_fallback_gap :
    lifespanStartup true false true true = Except.ok ⟨some false, none, none⟩ ∧
    (Except.ok ⟨some false, none, none⟩ : Except String AppModels).isOk = true ∧
    resolveActiveMode true ⟨some false, none, none⟩ = ActiveMode.unavailable ∧
    ActiveMode.unavailable ≠ ActiveMode.legacy := by
  exact ⟨rfl, rfl, rfl, by decide⟩

/-- Claim C2 (counterexample): with duplicate requested targets the fan-out
emits duplicate items — here targets es,es produce two items both carrying
language code es, so the output is not duplicate-free. -/
theorem duplicate_targets_duplicate_output :
    (translateText (some ⟨true, true, [], fun _ _ _ => some "Hola"⟩) "Hello" "en"
        ["es", "es"]).map (List.map TranslationItem.language_code) =
      Except.ok ["es", "es"] ∧
    ¬ (["es", "es"] : List String).Nodup := by
  exact ⟨rfl, by decide⟩

/-- Claim C2 (amended): the fan-out never emits an item whose language code
equals the source, and the emitted codes are exactly the requested targets
that differ from the source and whose translate call succeeded, in request
order — duplicates among the requested targets are preserved, not removed. -/
theorem fanout_skip_source_and_order (tr : TranslatorState) (text source : String)
    (targets : List String) :
    (∀ i ∈ fanOut tr text source targets, i.language_code ≠ source) ∧
    (fanOut tr text source targets).map TranslationItem.language_code =
      targets.filter
        (fun t => if t = source then false else (tr.translateRes text source t).isSome) :=
  fanOut_codes tr text source targets

/-- Claim C2 (witness): the amended statement applied at a concrete fan-out. -/
theorem fanout_skip_source_and_order_witness :
    (fanOut ⟨true, true, [], fun _ _ _ => some "Hola"⟩ "Hello" "en" ["en", "es", "es"]).map
      TranslationItem.language_code = ["es", "es"] := by
  have h := (fanout_skip_source_and_order ⟨true, true, [], fun _ _ _ => some "Hola"⟩
    "Hello" "en" ["en", "es", "es"]).2
  exact h.trans (by decide)

/-- Claim C3 (counterexample): on the spec's scenario input the parser does
not return clean text "Hello world" with events ["laughter"]: the removal
leaves a double space and the lowercase event tag is never captured by the
uppercase-only scan. -/
theorem parse_scenario_counterexample :
    ¬ ((parseSenseVoiceOutput "Hello <|HAPPY|> world <|laughter|>".toList).cleanText =
          "Hello world".toList ∧
       (parseSenseVoiceOutput "Hello <|HAPPY|> world <|laughter|>".toList).emotion = "HAPPY" ∧
       (parseSenseVoiceOutput "Hello <|HAPPY|> world <|laughter|>".toList).audio_events =
          ["laughter"]) := by
  decide

/-- Claim C3 (amended): the scenario input actually yields clean text
"Hello  world" (with the two spaces that surrounded each removed tag),
resolved emotion HAPPY (displayed as Happy), and an empty event list. -/
theorem parse_scenario_actual :
    (parseSenseVoiceOutput "Hello <|HAPPY|> world <|laughter|>".toList).cleanText =
      "Hello  world".toList ∧
    (parseSenseVoiceOutput "Hello <|HAPPY|> world <|laughter|>".toList).emotion = "HAPPY" ∧
    (emotionDisplay.lookup "HAPPY").map DisplayInfo.label = some "Happy" ∧
    (parseSenseVoiceOutput "Hello <|HAPPY|> world <|laughter|>".toList).audio_events = [] := by
  exact ⟨by decide, by decide, by decide, by decide⟩

/-- Claim C4 (counterexample): the single-pass removal can make previously
separated pieces adjacent, so the clean text of the nested input
angle-pipe angle-pipe x pipe-angle A pipe-angle still contains a complete
uppercase tag. -/
theorem clean_text_residual_tag :
    (parseSenseVoiceOutput "<|<|x|>A|>".toList).cleanText = "<|A|>".toList ∧
    containsUpperTag ((parseSenseVoiceOutput "<|<|x|>A|>".toList).cleanText) := by
  constructor
  · decide
  · exact ⟨[], ['A'], [], by decide, by decide, by decide⟩

/-- Claim C4 (amended): for every input the clean text is the input with a
set of disjoint spans removed and surrounding whitespace trimmed, where each
removed span is a complete tag (opening delimiter, nonempty pipe-free
interior, closing delimiter, the pattern the source actually removes) and
running the removal over any kept span removes nothing; because the pass is
single and removed spans are not rescanned, the clean text may still contain
the uppercase tag pattern (see the counterexample). -/
theorem tag_removal_single_pass (raw : List Char) :
    ∃ ps last, raw = joinPieces ps last ∧ (∀ p ∈ ps, IsTagSpan p.2) ∧
      (∀ p ∈ ps, reSub p.1 = p.1) ∧ reSub last = last ∧
      (parseSenseVoiceOutput raw).cleanText = pyStrip (gapsJoin ps last) := by
  obtain ⟨ps, last, h1, h2, h3, h4, h5⟩ := reSub_decomp raw
  refine ⟨ps, last, h1, h2, h3, h4, ?_⟩
  show pyStrip (reSub raw) = pyStrip (gapsJoin ps last)
  rw [h5]

/-- Claim C4 (witness): the amended statement applied at a concrete input. -/
theorem tag_removal_single_pass_witness :
    ∃ ps last, "a <|SAD|> b".toList = joinPieces ps last ∧ (∀ p ∈ ps, IsTagSpan p.2) ∧
      (∀ p ∈ ps, reSub p.1 = p.1) ∧ reSub last = last ∧
      (parseSenseVoiceOutput "a <|SAD|> b".toList).cleanText = pyStrip (gapsJoin ps last) :=
  tag_removal_single_pass ("a <|SAD|> b".toList)

/-- Claim C5: the resolved emotion is the last scanned identifier that lies
in the registry's emotion set, and NEUTRAL when no such identifier occurs
(getLastD of the filtered scan, whose default covers the empty case). -/
theorem last_emotion_tag_wins (raw : List Char) :
    (parseSenseVoiceOutput raw).emotion =
      ((findAllEmo raw).filter (fun m => emotionKeys.contains m)).getLastD "NEUTRAL" := by
  show (classifyTags (findAllEmo raw) "NEUTRAL" []).1 = _
  exact classifyTags_fst _ _ _

/-- Claim C6: on the unified path the reported confidence is the literal
0.85; the synthesized table maps the resolved emotion to exactly 0.85 and
every other registry emotion apart from the Unknown sentinel to exactly
0.05; and the table is a function of the resolved emotion alone. -/
theorem unified_confidence_distribution (post : List Char → List Char) (r : GenItem)
    (rest : List GenItem) (language : String) :
    (analyze post (r :: rest) language).emotionField.confidence = (0.85 : ℚ) ∧
    ((analyze post (r :: rest) language).emotionField.all_probabilities).lookup
        (pyLower (parseSenseVoiceOutput (post (r.text.getD []))).emotion) = some (0.85 : ℚ) ∧
    (∀ e ∈ emotionKeys, e ≠ "UNKNOWN" →
      e ≠ (parseSenseVoiceOutput (post (r.text.getD []))).emotion →
      ((analyze post (r :: rest) language).emotionField.all_probabilities).lookup (pyLower e) =
        some (0.05 : ℚ)) ∧
    (∀ (post2 : List Char → List Char) (r2 : GenItem) (rest2 : List GenItem)
        (language2 : String),
      (parseSenseVoiceOutput (post2 (r2.text.getD []))).emotion =
          (parseSenseVoiceOutput (post (r.text.getD []))).emotion →
      (analyze post2 (r2 :: rest2) language2).emotionField.all_probabilities =
        (analyze post (r :: rest) language).emotionField.all_probabilities) := by
  refine ⟨rfl, ?_, ?_, ?_⟩
  · exact probs_lookup_self (parse_emotion_mem (post (r.text.getD [])))
  · intro e he hne1 hne2
    exact probs_lookup_other (parse_emotion_mem (post (r.text.getD []))) he hne1 hne2
  · intro post2 r2 rest2 language2 heq
    show (dictUpdate baseProbs (parseSenseVoiceOutput (post2 (r2.text.getD []))).emotion
        (0.85 : ℚ)).map (fun kv => (pyLower kv.1, kv.2)) =
      (dictUpdate baseProbs (parseSenseVoiceOutput (post (r.text.getD []))).emotion
        (0.85 : ℚ)).map (fun kv => (pyLower kv.1, kv.2))
    rw [heq]

/-- Claim C6 (witness): the theorem applied at a concrete generate output
resolving SAD, reading off the 0.85 confidence and the 0.05 residual entry
of a non-resolved emotion. -/
theorem unified_confidence_distribution_witness :
    (analyze id [⟨some "<|SAD|>x".toList, some "en"⟩] "en").emotionField.confidence =
      (0.85 : ℚ) ∧
    ((analyze id [⟨some "<|SAD|>x".toList, some "en"⟩] "en").emotionField.all_probabilities).lookup
      (pyLower "HAPPY") = some (0.05 : ℚ) := by
  refine ⟨(unified_confidence_distribution id ⟨some "<|SAD|>x".toList, some "en"⟩ [] "en").1, ?_⟩
  exact (unified_confidence_distribution id ⟨some "<|SAD|>x".toList, some "en"⟩ [] "en").2.2.1
    "HAPPY" (by decide) (by decide) (by decide)

/-- Claim C7: a failing target is dropped and the loop continues with the
remaining targets unchanged; on the scenario (Hello, en, [en, es, fr]) with
es failing internally, the result is exactly the single fr item, order
preserved. -/
theorem translation_failure_isolation :
    (∀ (tr : TranslatorState) (text source t : String) (ts : List String),
      tr.translateRes text source t = none →
      fanOut tr text source (t :: ts) = fanOut tr text source ts) ∧
    (translateText (some trC7) "Hello" "en" ["en", "es", "fr"]).map
      (List.map TranslationItem.language_code) = Except.ok ["fr"] ∧
    (∀ out, translateText (some trC7) "Hello" "en" ["en", "es", "fr"] = Except.ok out →
      out.length = 1) := by
  refine ⟨?_, rfl, ?_⟩
  · intro tr text source t ts h
    by_cases ht : t = source
    · simp [fanOut, ht]
    · simp [fanOut, ht, h]
  · intro out h
    have hL : translateText (some trC7) "Hello" "en" ["en", "es", "fr"] =
        Except.ok [⟨"fr", "French", "🇫🇷", "Bonjour"⟩] := rfl
    rw [hL] at h
    injection h with h2
    rw [← h2]
    rfl

/-- Claim C7 (witness): the isolation equation applied at the scenario's
failing target. -/
theorem translation_failure_isolation_witness :
    trC7.translateRes "Hello" "en" "es" = none ∧
    fanOut trC7 "Hello" "en" ["es", "fr"] = fanOut trC7 "Hello" "en" ["fr"] :=
  ⟨rfl, translation_failure_isolation.1 trC7 "Hello" "en" "es" ["fr"] rfl⟩

/-- Claim C8: an absent translation collaborator or blank source text yields
the empty sequence, with no error raised (the fan-out terminates in the ok
branch before touching the collaborator). -/
theorem missing_translator_or_blank_text_empty (translator : Option TranslatorState)
    (text source : String) (targets : List String)
    (h : translator = none ∨ pyStrip text.toList = []) :
    translateText translator text source targets = Except.ok [] := by
  rcases h with h | h
  · subst h; rfl
  · cases translator with
    | none => rfl
    | some tr => simp [translateText, show pyStrip text.data = [] from h]

/-- Claim C8 (witness): the theorem applied to a whitespace-only text with a
present translator, and to an absent translator. -/
theorem missing_translator_or_blank_text_empty_witness :
    translateText (some ⟨true, true, [], fun _ _ _ => some "Hola"⟩) "  " "en" ["es"] =
      Except.ok [] ∧
    translateText none "Hello" "en" ["es"] = Except.ok [] :=
  ⟨missing_translator_or_blank_text_empty (some ⟨true, true, [], fun _ _ _ => some "Hola"⟩)
      "  " "en" ["es"] (Or.inr (by decide)),
   missing_translator_or_blank_text_empty none "Hello" "en" ["es"] (Or.inl rfl)⟩

/-- Claim C9: when the unified slot already holds a model handle, the lazy
load guard returns the very same handle (no reinitialization, whatever fresh
handle a reload would have produced), doing so twice changes nothing, and
the resolved active mode is the same before and after. -/
theorem load_idempotent_when_ready (α : Type) (m f1 f2 : α) (emo asr : Option Bool)
    (useSensevoice : Bool) :
    ensureLoaded f1 (some m) = some m ∧
    ensureLoaded f2 (ensureLoaded f1 (some m)) = ensureLoaded f1 (some m) ∧
    resolveActiveMode useSensevoice
        ⟨some (isLoadedSV (ensureLoaded f1 (some m))), emo, asr⟩ =
      resolveActiveMode useSensevoice ⟨some (isLoadedSV (some m : Option α)), emo, asr⟩ :=
  ⟨rfl, rfl, rfl⟩

/-- Claim C10: an empty generate result short-circuits analyze to the fixed
empty result — empty text, language unknown, emotion Neutral at confidence
exactly 0 with an empty probability table, no events, empty raw output — so
the 0.85 synthesized confidence does not apply to this edge case. -/
theorem empty_generate_result (post : List Char → List Char) (language : String) :
    analyze post [] language = emptyResult ∧
    (analyze post [] language).transcription.text = [] ∧
    (analyze post [] language).transcription.language = "unknown" ∧
    (analyze post [] language).emotionField.emotion = "Neutral" ∧
    (analyze post [] language).emotionField.confidence = 0 ∧
    (analyze post [] language).emotionField.all_probabilities = [] ∧
    (analyze post [] language).audio_events = [] ∧
    (analyze post [] language).raw_output = [] ∧
    (analyze post [] language).emotionField.confidence ≠ (0.85 : ℚ) :=
  ⟨rfl, rfl, rfl, rfl, rfl, rfl, rfl, rfl, by
    rw [show (analyze post [] language).emotionField.confidence = 0 from rfl]
    norm_num⟩
